import Mathlib

/-
Verification of the boid simulation core (src/main.rs).

The embedding translates the per-tick pipeline of the program:
  boid_sense  : neighbor discovery over all boids and pseudo boids
  boid_control: steering (cohesion + separation -> signed angular velocity)
  velocity / angular_velocity : explicit Euler integration of the pose

Modelling conventions:
  * f32 scalars are modelled as real numbers.
  * Entity identifiers are natural numbers; the ECS components of one boid
    entity (Boid, Transform, Velocity, AngularVelocity) are bundled in the
    record `Agent`, and a world is a `List Agent` in query-iteration order.
  * A NaN f32 vector is modelled as `Option.none`.  On the code paths in
    scope there are exactly two NaN sources: dividing the zero sum vector
    by a zero element count, and normalizing a zero-length vector; both are
    the `none` branches of `vnormalizeOpt` and of the count test below.
    The `is_nan` fallback of `cohesion` and `separation` is `Option.getD`.
  * A panicking `unwrap` on a failed entity lookup is modelled by `Option`
    bind: `none` means the Rust program aborts.
  * The HashMap of `SensoryData` is modelled as an association list built
    in insertion order, looked up with `List.find?`; a bevy query yields
    each entity at most once, so the key lists are duplicate-free.
-/

open Classical

noncomputable section

/-- Component structure of a 3-vector of f32, as bevy `Vec3`. -/
structure Vec3 where
  x : ℝ
  y : ℝ
  z : ℝ

attribute [ext] Vec3

def vzero : Vec3 := ⟨0, 0, 0⟩

/-- The bevy constant `Vec3::Y`, the fixed forward (up) axis. -/
def vY : Vec3 := ⟨0, 1, 0⟩

def vadd (a b : Vec3) : Vec3 := ⟨a.x + b.x, a.y + b.y, a.z + b.z⟩

def vsub (a b : Vec3) : Vec3 := ⟨a.x - b.x, a.y - b.y, a.z - b.z⟩

def vscale (r : ℝ) (v : Vec3) : Vec3 := ⟨r * v.x, r * v.y, r * v.z⟩

def vdot (a b : Vec3) : ℝ := a.x * b.x + a.y * b.y + a.z * b.z

def vcross (a b : Vec3) : Vec3 :=
  ⟨a.y * b.z - a.z * b.y, a.z * b.x - a.x * b.z, a.x * b.y - a.y * b.x⟩

/-- Squared length, glam `length_squared`. -/
def vlen2 (v : Vec3) : ℝ := v.x * v.x + v.y * v.y + v.z * v.z

/-- Length, glam `length`. -/
def vlen (v : Vec3) : ℝ := Real.sqrt (vlen2 v)

/-- glam `distance`: length of the difference. -/
def vdist (a b : Vec3) : ℝ := vlen (vsub a b)

/-- Sum of a list of vectors, as `iter().sum::<Vec3>()`. -/
def vsum : List Vec3 → Vec3
  | [] => vzero
  | v :: rest => vadd v (vsum rest)

/-- glam `normalize` is `self * (1 / length)`.  For a zero-length input the
f32 result is a NaN vector, modelled as `none`. -/
def vnormalizeOpt (v : Vec3) : Option Vec3 :=
  if vlen v = 0 then none else some (vscale (1 / vlen v) v)

/-- Quaternion with f32 components, as bevy `Quat` (x, y, z, w). -/
structure Quat where
  x : ℝ
  y : ℝ
  z : ℝ
  w : ℝ

attribute [ext] Quat

/-- The identity rotation `Quat::IDENTITY`. -/
def qId : Quat := ⟨0, 0, 0, 1⟩

/-- Hamilton product, glam `Quat::mul`. -/
def quatMul (a b : Quat) : Quat :=
  ⟨a.w * b.x + a.x * b.w + a.y * b.z - a.z * b.y,
   a.w * b.y - a.x * b.z + a.y * b.w + a.z * b.x,
   a.w * b.z + a.x * b.y - a.y * b.x + a.z * b.w,
   a.w * b.w - a.x * b.x - a.y * b.y - a.z * b.z⟩

/-- glam `Quat::mul_vec3`:
`v * (w*w - b.dot(b)) + b * (v.dot(b) * 2) + b.cross(v) * (w * 2)`
where `b` is the vector part of the quaternion. -/
def quatMulVec3 (q : Quat) (v : Vec3) : Vec3 :=
  let b : Vec3 := ⟨q.x, q.y, q.z⟩
  vadd (vadd (vscale (q.w * q.w - vdot b b) v) (vscale (vdot v b * 2) b))
    (vscale (q.w * 2) (vcross b v))

/-- glam `Quat::from_rotation_z`: half-angle sine on z, cosine on w. -/
def quatFromRotationZ (θ : ℝ) : Quat :=
  ⟨0, 0, Real.sin (θ / 2), Real.cos (θ / 2)⟩

/-- bevy `Transform`, restricted to the fields the program reads. -/
structure Transform where
  translation : Vec3
  rotation : Quat

attribute [ext] Transform

/-- The `Boid` component (main.rs lines 75-79). -/
structure Boid where
  neighbor_radius : ℝ
  personal_radius : ℝ
  coverage_angle : ℝ

/-- One boid entity with all components the systems access.  `velocity` is
the `Velocity(f32)` component and `angular_velocity` the
`AngularVelocity(f32)` component. -/
structure Agent where
  entity : ℕ
  boid : Boid
  transform : Transform
  velocity : ℝ
  angular_velocity : ℝ

/-- The data the steering systems may read from an agent: identifier, pose
and Boid parameters — everything except the velocity components. -/
def agentGeom (a : Agent) : ℕ × Transform × Boid :=
  (a.entity, a.transform, a.boid)

/-- The body of the inner loop of `boid_sense` (main.rs lines 100-120) for
one fixed outer boid with position `c` and radius `r`: per inner boid, push
its entity if its distance from `c` is within `r` (inclusive), then extend
with all pseudo boids.  Both sensed lists arise as instances. -/
def senseScan (c : Vec3) (r : ℝ) (ps : List ℕ) : List Agent → List ℕ
  | [] => []
  | o :: rest =>
      ((if vdist c o.transform.translation ≤ r then [o.entity] else []) ++ ps)
        ++ senseScan c r ps rest

/-- The neighbor list `boid_sense` records for agent `a`. -/
def neighborList (a : Agent) (ps : List ℕ) (agents : List Agent) : List ℕ :=
  senseScan a.transform.translation a.boid.neighbor_radius ps agents

/-- The too-close list `boid_sense` records for agent `a`. -/
def tooCloseList (a : Agent) (ps : List ℕ) (agents : List Agent) : List ℕ :=
  senseScan a.transform.translation a.boid.personal_radius ps agents

/-- `SensoryData` (main.rs lines 81-85): the two per-entity maps, modelled
as association lists in insertion order. -/
structure SensoryData where
  neighbor_map : List (ℕ × List ℕ)
  too_close_map : List (ℕ × List ℕ)

/-- HashMap lookup `get(&entity)` over the association-list model. -/
def mapGet (m : List (ℕ × List ℕ)) (e : ℕ) : Option (List ℕ) :=
  (m.find? (fun p => p.1 == e)).map Prod.snd

/-- `boid_sense` (main.rs lines 90-131): for every boid, scan all boids and
record the neighbor and too-close entity lists under its entity key.
`ps` is the result of the pseudo-boid query. -/
def boid_sense (agents : List Agent) (ps : List ℕ) : SensoryData :=
  ⟨agents.map (fun a => (a.entity, neighborList a ps agents)),
   agents.map (fun a => (a.entity, tooCloseList a ps agents))⟩

/-- Lookup of the `Transform` of an entity through the
`Query<&Transform, With<Boid>>` of `boid_control`; `none` models a failed
`get` (whose `unwrap` aborts the program). -/
def transformOf (agents : List Agent) (e : ℕ) : Option Transform :=
  (agents.find? (fun a => a.entity == e)).map Agent.transform

/-- Resolution of a sensed entity list to transforms
(`iter().map(|a| transforms.get(*a).unwrap()).collect()`). -/
def resolveAll (agents : List Agent) : List ℕ → Option (List Transform)
  | [] => some []
  | e :: rest =>
      (transformOf agents e).bind fun t =>
        (resolveAll agents rest).bind fun ts => some (t :: ts)

/-- Total variant of `resolveAll` used to state results that hold once all
lookups are known to succeed. -/
def resolveTransforms (agents : List Agent) (es : List ℕ) : List Transform :=
  es.filterMap (transformOf agents)

/-- `cohesion` (main.rs lines 186-204): normalize(average of the neighbor
positions minus own position); a NaN result (zero count, or average exactly
at the own position) collapses to the zero vector. -/
def cohesion (this : Transform) (boids : List Transform) : Vec3 :=
  let neighbors := boids.map Transform.translation
  let sum := vsum neighbors
  let dir : Option Vec3 :=
    if neighbors.length = 0 then none
    else vnormalizeOpt
      (vsub (vscale (1 / (neighbors.length : ℝ)) sum) this.translation)
  dir.getD vzero

/-- `separation` (main.rs lines 206-224): like `cohesion` with the
difference taken in the opposite direction. -/
def separation (this : Transform) (boids : List Transform) : Vec3 :=
  let neighbors := boids.map Transform.translation
  let sum := vsum neighbors
  let dir : Option Vec3 :=
    if neighbors.length = 0 then none
    else vnormalizeOpt
      (vsub this.translation (vscale (1 / (neighbors.length : ℝ)) sum))
  dir.getD vzero

/-- glam `Vec3::angle_between`:
`acos(dot / sqrt(length_squared * length_squared))`. -/
def angle_between (a b : Vec3) : ℝ :=
  Real.arccos (vdot a b / Real.sqrt (vlen2 a * vlen2 b))

/-- The unsigned angle between two vectors as the spec phrases it:
arccos of the dot product over the product of the lengths. -/
def specUnsignedAngle (a b : Vec3) : ℝ :=
  Real.arccos (vdot a b / (vlen a * vlen b))

/-- `radians_to` (main.rs lines 162-184): zero for the zero target vector,
otherwise the angle between forward and target, with its sign taken from
the z component of the cross product. -/
def radians_to (forward desired : Vec3) : ℝ :=
  if desired = vzero then 0
  else
    let delta := angle_between forward desired
    let cr := vcross forward desired
    if 0 < cr.z then delta else -delta

/-- The per-agent body of `boid_control` (main.rs lines 142-158), keyed by
the entity `e`: look up and resolve both sensed lists, look up the own
transform, compute cohesion and separation directions, normalize the
rotated forward axis, and combine the two signed angles.  `none` models a
panicking lookup or a NaN forward vector. -/
def controlDelta (agents : List Agent) (sd : SensoryData) (e : ℕ) : Option ℝ :=
  (mapGet sd.neighbor_map e).bind fun nbIds =>
  (resolveAll agents nbIds).bind fun neighbors =>
  (mapGet sd.too_close_map e).bind fun tcIds =>
  (resolveAll agents tcIds).bind fun too_close =>
  (transformOf agents e).bind fun this =>
  let c := cohesion this neighbors
  let s := separation this too_close
  (vnormalizeOpt (quatMulVec3 this.rotation vY)).bind fun forward =>
  some ((radians_to forward c + radians_to forward s) / 2)

/-- The loop of `boid_control` over the boid query, writing the combined
delta into the `AngularVelocity` component of each boid. -/
def boid_control_go (agents : List Agent) (sd : SensoryData) :
    List Agent → Option (List Agent)
  | [] => some []
  | a :: rest =>
      (controlDelta agents sd a.entity).bind fun d =>
        (boid_control_go agents sd rest).bind fun others =>
          some ({ a with angular_velocity := d } :: others)

/-- `boid_control` (main.rs lines 136-160). -/
def boid_control (sd : SensoryData) (agents : List Agent) :
    Option (List Agent) :=
  boid_control_go agents sd agents

/-- The normalized forward direction of a pose, as computed on line 152. -/
def forwardOf (t : Transform) : Vec3 :=
  vscale (1 / vlen (quatMulVec3 t.rotation vY)) (quatMulVec3 t.rotation vY)

/-- The steering value the planner assigns to agent `a`: the mean of the
signed angles from the forward direction to the cohesion direction and to
the separation direction, a function of poses, radii and identifiers only. -/
def plannedDelta (agents : List Agent) (ps : List ℕ) (a : Agent) : ℝ :=
  let f := forwardOf a.transform
  let c := cohesion a.transform
    (resolveTransforms agents (neighborList a ps agents))
  let s := separation a.transform
    (resolveTransforms agents (tooCloseList a ps agents))
  (radians_to f c + radians_to f s) / 2

/-- The centroid of a point set, as the spec phrases the average. -/
def centroid (pts : List Vec3) : Vec3 :=
  vscale (1 / (pts.length : ℝ)) (vsum pts)

/-- The `velocity` system (main.rs lines 231-236): every entity with a
`Velocity` and a `Transform` moves along its rotated forward axis. -/
def velocity_system (dt : ℝ) (agents : List Agent) : List Agent :=
  agents.map fun a =>
    let direction := quatMulVec3 a.transform.rotation vY
    let t := vadd a.transform.translation (vscale (dt * a.velocity) direction)
    { a with transform := { a.transform with translation := t } }

/-- The `angular_velocity` system (main.rs lines 241-245): every entity
with an `AngularVelocity` and a `Transform` composes its rotation with a z
rotation by angular velocity times elapsed time. -/
def angular_velocity_system (dt : ℝ) (agents : List Agent) : List Agent :=
  agents.map fun a =>
    let r := quatMul a.transform.rotation (quatFromRotationZ (a.angular_velocity * dt))
    { a with transform := { a.transform with rotation := r } }

/-- The position the integration contract assigns to an agent: its
translation plus delta time times linear speed times the rotated forward
axis. -/
def movedTranslation (dt : ℝ) (a : Agent) : Vec3 :=
  vadd a.transform.translation
    (vscale (dt * a.velocity) (quatMulVec3 a.transform.rotation vY))

/-- The orientation the integration contract assigns to an agent: its
rotation composed with a rotation about the z axis by angular speed times
delta time. -/
def composedRotation (dt : ℝ) (a : Agent) : Quat :=
  quatMul a.transform.rotation (quatFromRotationZ (a.angular_velocity * dt))

/-- A concrete boid entity used to instantiate hypotheses of the claims. -/
def A0 : Agent :=
  { entity := 0,
    boid := { neighbor_radius := 20, personal_radius := 2, coverage_angle := 3 },
    transform := { translation := ⟨0, 0, 0⟩, rotation := qId },
    velocity := 100,
    angular_velocity := 1 }

/-- A second concrete boid at distance 5 from `A0`. -/
def A1 : Agent :=
  { entity := 1,
    boid := { neighbor_radius := 5, personal_radius := 2, coverage_angle := 3 },
    transform := { translation := ⟨3, 4, 0⟩, rotation := qId },
    velocity := 100,
    angular_velocity := 1 }

lemma vlen2_nonneg (v : Vec3) : 0 ≤ vlen2 v := by
  unfold vlen2
  nlinarith [mul_self_nonneg v.x, mul_self_nonneg v.y, mul_self_nonneg v.z]

lemma vlen_vzero : vlen vzero = 0 := by
  simp [vlen, vlen2, vzero]

lemma vsub_cancel (v : Vec3) : vsub v v = vzero := by
  simp [vsub, vzero]

lemma vdist_self (v : Vec3) : vdist v v = 0 := by
  rw [vdist, vsub_cancel, vlen_vzero]

lemma vadd_vzero (v : Vec3) : vadd v vzero = v := by
  simp [vadd, vzero]

lemma vscale_one (v : Vec3) : vscale 1 v = v := by
  simp [vscale]

lemma vnormalizeOpt_vzero : vnormalizeOpt vzero = none := by
  simp [vnormalizeOpt, vlen_vzero]

lemma quatMulVec3_qId (v : Vec3) : quatMulVec3 qId v = v := by
  ext <;> simp [quatMulVec3, qId, vdot, vcross, vadd, vscale]

lemma vlen_vY : vlen vY = 1 := by
  have h : vlen2 vY = 1 := by norm_num [vlen2, vY]
  rw [vlen, h, Real.sqrt_one]

lemma forward_qId_ne_zero : vlen (quatMulVec3 qId vY) ≠ 0 := by
  rw [quatMulVec3_qId, vlen_vY]
  norm_num

lemma mem_senseScan {c : Vec3} {r : ℝ} {ps : List ℕ} {e : ℕ} :
    ∀ l : List Agent, e ∈ senseScan c r ps l ↔
      (∃ o ∈ l, o.entity = e ∧ vdist c o.transform.translation ≤ r)
        ∨ (l ≠ [] ∧ e ∈ ps) := by
  intro l
  induction l with
  | nil => simp [senseScan]
  | cons b t ih =>
      simp only [senseScan, List.mem_append, ih]
      by_cases hb : vdist c b.transform.translation ≤ r
      · simp only [if_pos hb, List.mem_singleton]
        constructor
        · rintro ((rfl | hp) | ⟨o, ho, hoe, hod⟩ | ⟨-, hp⟩)
          · exact Or.inl ⟨b, List.mem_cons_self b t, rfl, hb⟩
          · exact Or.inr ⟨List.cons_ne_nil b t, hp⟩
          · exact Or.inl ⟨o, List.mem_cons_of_mem b ho, hoe, hod⟩
          · exact Or.inr ⟨List.cons_ne_nil b t, hp⟩
        · rintro (⟨o, ho, hoe, hod⟩ | ⟨-, hp⟩)
          · rcases List.mem_cons.mp ho with rfl | hot
            · exact Or.inl (Or.inl hoe.symm)
            · exact Or.inr (Or.inl ⟨o, hot, hoe, hod⟩)
          · exact Or.inl (Or.inr hp)
      · simp only [if_neg hb, List.not_mem_nil, false_or, List.nil_append]
        constructor
        · rintro (hp | ⟨o, ho, hoe, hod⟩ | ⟨-, hp⟩)
          · exact Or.inr ⟨List.cons_ne_nil b t, hp⟩
          · exact Or.inl ⟨o, List.mem_cons_of_mem b ho, hoe, hod⟩
          · exact Or.inr ⟨List.cons_ne_nil b t, hp⟩
        · rintro (⟨o, ho, hoe, hod⟩ | ⟨-, hp⟩)
          · rcases List.mem_cons.mp ho with rfl | hot
            · exact absurd hod hb
            · exact Or.inr (Or.inl ⟨o, hot, hoe, hod⟩)
          · exact Or.inl hp

lemma count_senseScan {c : Vec3} {r : ℝ} {ps : List ℕ} {p : ℕ}
    (l : List Agent) (h : ∀ o ∈ l, o.entity ≠ p) :
    (senseScan c r ps l).count p = l.length * ps.count p := by
  induction l with
  | nil => simp [senseScan]
  | cons b t ih =>
      have hb : b.entity ≠ p := h b (List.mem_cons_self b t)
      have ht : ∀ o ∈ t, o.entity ≠ p := fun o ho => h o (List.mem_cons_of_mem b ho)
      rw [senseScan, List.count_append, List.count_append, ih ht]
      have hseg : (if vdist c b.transform.translation ≤ r
          then [b.entity] else []).count p = 0 := by
        split_ifs <;> simp [List.count_cons, hb]
      rw [hseg, List.length_cons, Nat.succ_mul]
      ring

lemma find_entity_self :
    ∀ (l : List Agent) (a : Agent), a ∈ l → (l.map Agent.entity).Nodup →
      l.find? (fun b => b.entity == a.entity) = some a := by
  intro l a
  induction l with
  | nil => intro ha _; simp at ha
  | cons b t ih =>
      intro ha hnd
      rw [List.map_cons, List.nodup_cons] at hnd
      by_cases hb : b.entity = a.entity
      · rcases List.mem_cons.mp ha with rfl | hat
        · exact List.find?_cons_of_pos _ (by simp)
        · have : b.entity ∈ t.map Agent.entity := by
            rw [hb]; exact List.mem_map_of_mem Agent.entity hat
          exact absurd this hnd.1
      · rw [List.find?_cons_of_neg _ (by simp [hb])]
        rcases List.mem_cons.mp ha with rfl | hat
        · exact absurd rfl hb
        · exact ih hat hnd.2

lemma transformOf_self (agents : List Agent) (a : Agent) (ha : a ∈ agents)
    (hnd : (agents.map Agent.entity).Nodup) :
    transformOf agents a.entity = some a.transform := by
  rw [transformOf, find_entity_self agents a ha hnd, Option.map_some']

lemma mapGet_map_entity (f : Agent → List ℕ) (l : List Agent) (a : Agent)
    (ha : a ∈ l) (hnd : (l.map Agent.entity).Nodup) :
    mapGet (l.map fun b => (b.entity, f b)) a.entity = some (f a) := by
  rw [mapGet, List.find?_map]
  have h := find_entity_self l a ha hnd
  have hpred : (fun p : ℕ × List ℕ => p.1 == a.entity) ∘
      (fun b : Agent => (b.entity, f b)) = fun b : Agent => b.entity == a.entity := rfl
  rw [hpred, h, Option.map_some', Option.map_some']

lemma transformOf_isSome {l : List Agent} {e : ℕ}
    (h : ∃ o ∈ l, o.entity = e) : (transformOf l e).isSome := by
  rcases h with ⟨o, ho, rfl⟩
  have : (l.find? fun a => a.entity == o.entity).isSome :=
    List.find?_isSome.mpr ⟨o, ho, by simp⟩
  simpa [transformOf] using this

lemma resolveAll_eq (agents : List Agent) :
    ∀ es : List ℕ, (∀ e ∈ es, (transformOf agents e).isSome) →
      resolveAll agents es = some (resolveTransforms agents es) := by
  intro es
  induction es with
  | nil => intro _; rfl
  | cons e t ih =>
      intro h
      obtain ⟨tf, htf⟩ :=
        Option.isSome_iff_exists.mp (h e (List.mem_cons_self e t))
      have ht := ih fun x hx => h x (List.mem_cons_of_mem e hx)
      rw [resolveAll, htf, Option.some_bind, ht, Option.some_bind]
      simp [resolveTransforms, List.filterMap_cons, htf]

lemma senseScan_resolvable (agents : List Agent) (ps : List ℕ) (c : Vec3)
    (r : ℝ) (H3 : ∀ e ∈ ps, ∃ b ∈ agents, b.entity = e) :
    ∀ e ∈ senseScan c r ps agents, (transformOf agents e).isSome := by
  intro e he
  rcases (mem_senseScan agents).mp he with ⟨o, ho, hoe, -⟩ | ⟨-, hp⟩
  · exact transformOf_isSome ⟨o, ho, hoe⟩
  · exact transformOf_isSome (H3 e hp)

lemma controlDelta_eq (agents : List Agent) (ps : List ℕ) (a : Agent)
    (H1 : a ∈ agents) (H2 : (agents.map Agent.entity).Nodup)
    (H3 : ∀ e ∈ ps, ∃ b ∈ agents, b.entity = e)
    (H4 : vlen (quatMulVec3 a.transform.rotation vY) ≠ 0) :
    controlDelta agents (boid_sense agents ps) a.entity
      = some (plannedDelta agents ps a) := by
  have hnb : mapGet (boid_sense agents ps).neighbor_map a.entity
      = some (neighborList a ps agents) :=
    mapGet_map_entity (fun b => neighborList b ps agents) agents a H1 H2
  have htc : mapGet (boid_sense agents ps).too_close_map a.entity
      = some (tooCloseList a ps agents) :=
    mapGet_map_entity (fun b => tooCloseList b ps agents) agents a H1 H2
  have hrnb : resolveAll agents (neighborList a ps agents)
      = some (resolveTransforms agents (neighborList a ps agents)) :=
    resolveAll_eq agents _
      (senseScan_resolvable agents ps a.transform.translation
        a.boid.neighbor_radius H3)
  have hrtc : resolveAll agents (tooCloseList a ps agents)
      = some (resolveTransforms agents (tooCloseList a ps agents)) :=
    resolveAll_eq agents _
      (senseScan_resolvable agents ps a.transform.translation
        a.boid.personal_radius H3)
  have hT := transformOf_self agents a H1 H2
  rw [controlDelta, hnb, Option.some_bind, hrnb, Option.some_bind, htc,
    Option.some_bind, hrtc, Option.some_bind, hT, Option.some_bind]
  rw [vnormalizeOpt, if_neg H4, Option.some_bind]
  rfl

lemma boid_control_go_map (agents : List Agent) (sd : SensoryData)
    (g : Agent → ℝ) :
    ∀ l : List Agent, (∀ b ∈ l, controlDelta agents sd b.entity = some (g b)) →
      boid_control_go agents sd l
        = some (l.map fun b => { b with angular_velocity := g b }) := by
  intro l
  induction l with
  | nil => intro _; rfl
  | cons b t ih =>
      intro h
      have hb := h b (List.mem_cons_self b t)
      have ht := ih fun x hx => h x (List.mem_cons_of_mem b hx)
      rw [boid_control_go, hb, Option.some_bind, ht, Option.some_bind,
        List.map_cons]

lemma agentGeom_parts {b b2 : Agent} (h : agentGeom b = agentGeom b2) :
    b.entity = b2.entity ∧ b.transform = b2.transform ∧ b.boid = b2.boid := by
  simpa [agentGeom, Prod.ext_iff] using h

lemma senseScan_geom (c : Vec3) (r : ℝ) (ps : List ℕ) :
    ∀ l l2 : List Agent, l.map agentGeom = l2.map agentGeom →
      senseScan c r ps l = senseScan c r ps l2 := by
  intro l
  induction l with
  | nil =>
      intro l2 h
      cases l2 with
      | nil => rfl
      | cons b2 t2 => simp at h
  | cons b t ih =>
      intro l2 h
      cases l2 with
      | nil => simp at h
      | cons b2 t2 =>
          rw [List.map_cons, List.map_cons] at h
          injection h with h1 h2
          obtain ⟨he, ht, -⟩ := agentGeom_parts h1
          rw [senseScan, senseScan, ih t2 h2, ht, he]

lemma transformOf_geom :
    ∀ l l2 : List Agent, l.map agentGeom = l2.map agentGeom →
      ∀ e : ℕ, transformOf l e = transformOf l2 e := by
  intro l
  induction l with
  | nil =>
      intro l2 h e
      cases l2 with
      | nil => rfl
      | cons b2 t2 => simp at h
  | cons b t ih =>
      intro l2 h e
      cases l2 with
      | nil => simp at h
      | cons b2 t2 =>
          rw [List.map_cons, List.map_cons] at h
          injection h with h1 h2
          obtain ⟨he, ht, -⟩ := agentGeom_parts h1
          by_cases hbe : b.entity = e
          · rw [transformOf, List.find?_cons_of_pos _ (by simp [hbe]),
              transformOf, List.find?_cons_of_pos _ (by simp [← he, hbe]),
              Option.map_some', Option.map_some', ht]
          · rw [transformOf, List.find?_cons_of_neg _ (by simp [hbe]),
              transformOf, List.find?_cons_of_neg _ (by simp [← he, hbe])]
            exact ih t2 h2 e

lemma map_senseScan_geom (ps : List ℕ) (rsel : Boid → ℝ)
    {L L2 : List Agent} (hL : L.map agentGeom = L2.map agentGeom) :
    ∀ u u2 : List Agent, u.map agentGeom = u2.map agentGeom →
      (u.map fun b =>
        (b.entity, senseScan b.transform.translation (rsel b.boid) ps L))
        = u2.map fun b =>
          (b.entity, senseScan b.transform.translation (rsel b.boid) ps L2) := by
  intro u
  induction u with
  | nil =>
      intro u2 h
      cases u2 with
      | nil => rfl
      | cons b2 t2 => simp at h
  | cons b t ih =>
      intro u2 h
      cases u2 with
      | nil => simp at h
      | cons b2 t2 =>
          rw [List.map_cons, List.map_cons] at h
          injection h with h1 h2
          obtain ⟨he, ht, hb⟩ := agentGeom_parts h1
          rw [List.map_cons, List.map_cons, ih t2 h2,
            senseScan_geom b.transform.translation (rsel b.boid) ps L L2 hL,
            he, ht, hb]

lemma boid_sense_geom (ps : List ℕ) {l l2 : List Agent}
    (h : l.map agentGeom = l2.map agentGeom) :
    boid_sense l ps = boid_sense l2 ps := by
  simp only [boid_sense, neighborList, tooCloseList]
  rw [map_senseScan_geom ps (fun bd => bd.neighbor_radius) h l l2 h,
    map_senseScan_geom ps (fun bd => bd.personal_radius) h l l2 h]

lemma resolveAll_geom {l l2 : List Agent}
    (h : l.map agentGeom = l2.map agentGeom) :
    ∀ es : List ℕ, resolveAll l es = resolveAll l2 es := by
  intro es
  induction es with
  | nil => rfl
  | cons e t ih => rw [resolveAll, resolveAll, transformOf_geom l l2 h e, ih]

lemma controlDelta_geom {l l2 : List Agent}
    (h : l.map agentGeom = l2.map agentGeom) (sd : SensoryData) (e : ℕ) :
    controlDelta l sd e = controlDelta l2 sd e := by
  have hro : resolveAll l = resolveAll l2 :=
    funext fun es => resolveAll_geom h es
  have hto : transformOf l = transformOf l2 :=
    funext fun x => transformOf_geom l l2 h x
  simp only [controlDelta, hro, hto]

lemma cohesion_degenerate (t : Transform) (boids : List Transform)
    (h : boids = [] ∨
      centroid (boids.map Transform.translation) = t.translation) :
    cohesion t boids = vzero := by
  rcases h with rfl | hc
  · simp [cohesion]
  · rcases boids with _ | ⟨b, bs⟩
    · simp [cohesion]
    · rw [centroid] at hc
      have hlen : ¬((b :: bs).map Transform.translation).length = 0 := by simp
      simp only [cohesion, if_neg hlen]
      rw [hc, vsub_cancel, vnormalizeOpt_vzero, Option.getD_none]

lemma separation_degenerate (t : Transform) (boids : List Transform)
    (h : boids = [] ∨
      centroid (boids.map Transform.translation) = t.translation) :
    separation t boids = vzero := by
  rcases h with rfl | hc
  · simp [separation]
  · rcases boids with _ | ⟨b, bs⟩
    · simp [separation]
    · rw [centroid] at hc
      have hlen : ¬((b :: bs).map Transform.translation).length = 0 := by simp
      simp only [separation, if_neg hlen]
      rw [hc, vsub_cancel, vnormalizeOpt_vzero, Option.getD_none]

lemma radians_to_vzero (f : Vec3) : radians_to f vzero = 0 := by
  simp [radians_to]

lemma centroid_single (v : Vec3) : centroid [v] = v := by
  ext <;> simp [centroid, vsum, vadd, vzero, vscale]

lemma cohesion_self (t : Transform) : cohesion t [t] = vzero :=
  cohesion_degenerate t [t] (Or.inr (by rw [List.map_cons, List.map_nil, centroid_single]))

lemma separation_self (t : Transform) : separation t [t] = vzero :=
  separation_degenerate t [t] (Or.inr (by rw [List.map_cons, List.map_nil, centroid_single]))

lemma senseScan_single (c : Vec3) (r : ℝ) (a : Agent) :
    senseScan c r [] [a] =
      if vdist c a.transform.translation ≤ r then [a.entity] else [] := by
  simp [senseScan]

lemma resolveTransforms_self (a : Agent) :
    resolveTransforms [a] [a.entity] = [a.transform] := by
  have h : transformOf [a] a.entity = some a.transform :=
    transformOf_self [a] a (List.mem_cons_self a []) (by simp)
  simp [resolveTransforms, h]

lemma plannedDelta_single (a : Agent) : plannedDelta [a] [] a = 0 := by
  have hc : cohesion a.transform
      (resolveTransforms [a] (neighborList a [] [a])) = vzero := by
    rw [neighborList, senseScan_single]
    by_cases h : vdist a.transform.translation a.transform.translation ≤
        a.boid.neighbor_radius
    · rw [if_pos h, resolveTransforms_self, cohesion_self]
    · rw [if_neg h]
      exact cohesion_degenerate a.transform [] (Or.inl rfl)
  have hs : separation a.transform
      (resolveTransforms [a] (tooCloseList a [] [a])) = vzero := by
    rw [tooCloseList, senseScan_single]
    by_cases h : vdist a.transform.translation a.transform.translation ≤
        a.boid.personal_radius
    · rw [if_pos h, resolveTransforms_self, separation_self]
    · rw [if_neg h]
      exact separation_degenerate a.transform [] (Or.inl rfl)
  simp only [plannedDelta, hc, hs, radians_to_vzero]
  norm_num

/-- Claim C1: each tick the planner overwrites the angular velocity of every
agent with exactly the mean of the signed angle to the cohesion vector and
the signed angle to the separation vector, and the written value is a
function of the current geometric configuration (identifiers, poses, radii)
only: it is unchanged under any change of the stored angular velocities (or
linear speeds), so it does not depend on the previous angular velocity.
Hypotheses: entity keys are unique (a bevy query yields each entity once),
every sensed pseudo entity resolves in the transform query (otherwise the
unwrap panics rather than writing), and each rotated forward axis is
nonzero (true for unit rotations; a zero vector would give a NaN forward). -/
theorem claim_C1 (agents : List Agent) (ps : List ℕ)
    (H2 : (agents.map Agent.entity).Nodup)
    (H3 : ∀ e ∈ ps, ∃ b ∈ agents, b.entity = e)
    (H4 : ∀ b ∈ agents, vlen (quatMulVec3 b.transform.rotation vY) ≠ 0) :
    boid_control (boid_sense agents ps) agents
      = some (agents.map fun b =>
          { b with angular_velocity := plannedDelta agents ps b })
    ∧ ∀ agents2, agents2.map agentGeom = agents.map agentGeom →
        ∀ e, controlDelta agents2 (boid_sense agents2 ps) e
          = controlDelta agents (boid_sense agents ps) e := by
  constructor
  · exact boid_control_go_map agents _ (plannedDelta agents ps) agents
      (fun b hb => controlDelta_eq agents ps b hb H2 H3 (H4 b hb))
  · intro agents2 h e
    rw [boid_sense_geom ps h]
    exact controlDelta_geom h _ e

theorem claim_C1_witness :
    (boid_control (boid_sense [A0] []) [A0]
      = some ([A0].map fun b =>
          { b with angular_velocity := plannedDelta [A0] [] b }))
    ∧ controlDelta [A0] (boid_sense [A0] []) 0
      = controlDelta [A0] (boid_sense [A0] []) 0 := by
  have h := claim_C1 [A0] [] (by simp) (by simp)
    (fun b hb => by
      have hb0 : b = A0 := by simpa using hb
      rw [hb0]
      exact forward_qId_ne_zero)
  exact ⟨h.1, h.2 [A0] rfl 0⟩

/-- Claim C2: the signed turn angle of `radians_to` is 0 for the zero target
vector; otherwise it equals the unsigned angle between forward and target
(arccos of the dot product over the product of the norms, as the spec words
it), kept positive when the z component of the cross product is positive
and negated when it is non-positive. -/
theorem claim_C2 (F V : Vec3) :
    radians_to F V = if V = vzero then 0
      else if 0 < (vcross F V).z then specUnsignedAngle F V
      else -specUnsignedAngle F V := by
  have hab : angle_between F V = specUnsignedAngle F V := by
    rw [angle_between, specUnsignedAngle, vlen, vlen,
      ← Real.sqrt_mul (vlen2_nonneg F)]
  simp only [radians_to, hab]

/-- Claim C3: an empty neighbor or too-close set, or a centroid exactly at
the position of the agent, makes the cohesion (resp. separation) vector the
zero vector, and the planner always writes a well-defined real number into
the angular velocity (`isSome`: `none` would model a NaN or a panic), which
is all that the orientation integrator ever reads. -/
theorem claim_C3 :
    (∀ (t : Transform) (boids : List Transform),
      boids = [] ∨ centroid (boids.map Transform.translation) = t.translation →
        cohesion t boids = vzero)
    ∧ (∀ (t : Transform) (boids : List Transform),
      boids = [] ∨ centroid (boids.map Transform.translation) = t.translation →
        separation t boids = vzero)
    ∧ ∀ (agents : List Agent) (ps : List ℕ) (a : Agent), a ∈ agents →
        (agents.map Agent.entity).Nodup →
        (∀ e ∈ ps, ∃ b ∈ agents, b.entity = e) →
        vlen (quatMulVec3 a.transform.rotation vY) ≠ 0 →
        (controlDelta agents (boid_sense agents ps) a.entity).isSome :=
  ⟨cohesion_degenerate, separation_degenerate,
    fun agents ps a h1 h2 h3 h4 => by
      rw [controlDelta_eq agents ps a h1 h2 h3 h4]
      rfl⟩

theorem claim_C3_witness :
    cohesion { translation := vzero, rotation := qId } [] = vzero
    ∧ (controlDelta [A0] (boid_sense [A0] []) 0).isSome := by
  refine ⟨claim_C3.1 _ [] (Or.inl rfl), ?_⟩
  exact claim_C3.2.2 [A0] [] A0 (by simp) (by simp) (by simp)
    forward_qId_ne_zero

/-- Claim C4: for agents A and O (O an actual boid whose entity is not a
pseudo entity), O is in the sensed neighbor list of A exactly when their
distance is at most the neighbor radius of A, and in the too-close list
exactly when it is at most the personal radius: the comparison is
inclusive. -/
theorem claim_C4 (agents : List Agent) (ps : List ℕ) (A O : Agent)
    (hO : O ∈ agents) (hnd : (agents.map Agent.entity).Nodup)
    (hps : O.entity ∉ ps) :
    (O.entity ∈ neighborList A ps agents ↔
      vdist A.transform.translation O.transform.translation
        ≤ A.boid.neighbor_radius)
    ∧ (O.entity ∈ tooCloseList A ps agents ↔
      vdist A.transform.translation O.transform.translation
        ≤ A.boid.personal_radius) := by
  have hinj := List.inj_on_of_nodup_map hnd
  constructor
  · rw [neighborList]
    constructor
    · intro hm
      rcases (mem_senseScan agents).mp hm with ⟨o, ho, hoe, hod⟩ | ⟨-, hp⟩
      · have hOo : o = O := hinj ho hO hoe
        rwa [hOo] at hod
      · exact absurd hp hps
    · intro hd
      exact (mem_senseScan agents).mpr (Or.inl ⟨O, hO, rfl, hd⟩)
  · rw [tooCloseList]
    constructor
    · intro hm
      rcases (mem_senseScan agents).mp hm with ⟨o, ho, hoe, hod⟩ | ⟨-, hp⟩
      · have hOo : o = O := hinj ho hO hoe
        rwa [hOo] at hod
      · exact absurd hp hps
    · intro hd
      exact (mem_senseScan agents).mpr (Or.inl ⟨O, hO, rfl, hd⟩)

theorem claim_C4_witness :
    ((1 : ℕ) ∈ neighborList A0 [] [A0, A1] ↔
      vdist A0.transform.translation A1.transform.translation
        ≤ A0.boid.neighbor_radius)
    ∧ ((1 : ℕ) ∈ tooCloseList A0 [] [A0, A1] ↔
      vdist A0.transform.translation A1.transform.translation
        ≤ A0.boid.personal_radius) :=
  claim_C4 [A0, A1] [] A0 A1
    (List.mem_cons_of_mem A0 (List.mem_cons_self A1 []))
    (by simp [A0, A1]) (by simp)

/-- Claim C5: every pseudo entity delivered by the pseudo-boid query is a
member of the sensed neighbor list and of the sensed too-close list of
every agent, regardless of any distance. -/
theorem claim_C5 (agents : List Agent) (ps : List ℕ) (A : Agent) (p : ℕ)
    (hA : A ∈ agents) (hp : p ∈ ps) :
    p ∈ neighborList A ps agents ∧ p ∈ tooCloseList A ps agents := by
  have hne : agents ≠ [] := List.ne_nil_of_mem hA
  exact ⟨(mem_senseScan agents).mpr (Or.inr ⟨hne, hp⟩),
    (mem_senseScan agents).mpr (Or.inr ⟨hne, hp⟩)⟩

theorem claim_C5_witness :
    (7 : ℕ) ∈ neighborList A0 [7] [A0]
    ∧ (7 : ℕ) ∈ tooCloseList A0 [7] [A0] :=
  claim_C5 [A0] [7] A0 7 (List.mem_cons_self A0 [])
    (List.mem_cons_self 7 [])

/-- Claim C6: for non-negative delta time, the velocity system moves every
agent by delta time times linear speed along the forward axis rotated by the
current orientation, the angular velocity system composes every orientation
with a z rotation by angular speed times delta time, and their combination
updates exactly the pose this way, leaving every other field unchanged. -/
theorem claim_C6 (dt : ℝ) (hdt : 0 ≤ dt) (agents : List Agent) :
    velocity_system dt agents = (agents.map fun a =>
      { a with transform :=
        { a.transform with translation := movedTranslation dt a } })
    ∧ angular_velocity_system dt agents = (agents.map fun a =>
      { a with transform :=
        { a.transform with rotation := composedRotation dt a } })
    ∧ angular_velocity_system dt (velocity_system dt agents)
      = agents.map fun a =>
        { a with transform := ⟨movedTranslation dt a, composedRotation dt a⟩ } := by
  refine ⟨rfl, rfl, ?_⟩
  rw [velocity_system, angular_velocity_system, List.map_map]
  rfl

theorem claim_C6_witness :
    angular_velocity_system 1 (velocity_system 1 [A1])
      = [A1].map fun a =>
        { a with transform := ⟨movedTranslation 1 a, composedRotation 1 a⟩ } :=
  (claim_C6 1 zero_le_one [A1]).2.2

/-- Claim C8: a simulation of exactly one agent and no pseudo agents plans
angular velocity 0 for the agent every tick (its only neighbor is itself,
so both steering vectors collapse to zero and both signed angles are 0).
The hypothesis states that the rotated forward axis is nonzero, which
holds for every unit rotation. -/
theorem claim_C8 (a : Agent)
    (h : vlen (quatMulVec3 a.transform.rotation vY) ≠ 0) :
    boid_control (boid_sense [a] []) [a]
      = some [{ a with angular_velocity := 0 }] := by
  have h1 : a ∈ [a] := List.mem_cons_self a []
  have h2 : ([a].map Agent.entity).Nodup := by simp
  have h3 : ∀ e ∈ ([] : List ℕ), ∃ b ∈ [a], b.entity = e := by simp
  have hcd := controlDelta_eq [a] [] a h1 h2 h3 h
  rw [plannedDelta_single a] at hcd
  have hmap := boid_control_go_map [a] (boid_sense [a] []) (fun _ => 0) [a]
    (fun b hb => by
      have hb0 : b = a := by simpa using hb
      rw [hb0]
      exact hcd)
  rw [boid_control, hmap, List.map_cons, List.map_nil]

theorem claim_C8_witness :
    boid_control (boid_sense [A0] []) [A0]
      = some [{ A0 with angular_velocity := 0 }] :=
  claim_C8 A0 forward_qId_ne_zero

/-- Claim C9: because the pseudo extension runs inside the inner loop of
`boid_sense`, a pseudo entity that appears once in the pseudo query and is
no boid entity occurs in the sensed neighbor list and too-close list of any
agent with multiplicity equal to the number of boids, so the averaged
centroids weight its position once per boid. -/
theorem claim_C9 (agents : List Agent) (ps : List ℕ) (A : Agent) (p : ℕ)
    (hcount : ps.count p = 1) (hnp : ∀ o ∈ agents, o.entity ≠ p) :
    (neighborList A ps agents).count p = agents.length
    ∧ (tooCloseList A ps agents).count p = agents.length := by
  constructor
  · rw [neighborList, count_senseScan agents hnp, hcount, mul_one]
  · rw [tooCloseList, count_senseScan agents hnp, hcount, mul_one]

theorem claim_C9_witness :
    (neighborList A0 [7] [A0]).count 7 = [A0].length
    ∧ (tooCloseList A0 [7] [A0]).count 7 = [A0].length :=
  claim_C9 [A0] [7] A0 7 (by simp)
    (fun o ho => by
      have ho0 : o = A0 := by simpa using ho
      rw [ho0]
      simp [A0])

/-- Claim C10: with non-negative radii, sensing includes an agent in its own
neighbor and too-close lists (its distance to itself is 0 and the
comparison is inclusive), so both sensed lists are never empty and the
centroids include the own position. -/
theorem claim_C10 (agents : List Agent) (ps : List ℕ) (A : Agent)
    (hA : A ∈ agents) (hnr : 0 ≤ A.boid.neighbor_radius)
    (hpr : 0 ≤ A.boid.personal_radius) :
    (A.entity ∈ neighborList A ps agents
      ∧ A.entity ∈ tooCloseList A ps agents)
    ∧ neighborList A ps agents ≠ [] ∧ tooCloseList A ps agents ≠ [] := by
  have h1 : A.entity ∈ neighborList A ps agents :=
    (mem_senseScan agents).mpr
      (Or.inl ⟨A, hA, rfl, by rw [vdist_self]; exact hnr⟩)
  have h2 : A.entity ∈ tooCloseList A ps agents :=
    (mem_senseScan agents).mpr
      (Or.inl ⟨A, hA, rfl, by rw [vdist_self]; exact hpr⟩)
  exact ⟨⟨h1, h2⟩, List.ne_nil_of_mem h1, List.ne_nil_of_mem h2⟩

theorem claim_C10_witness :
    ((0 : ℕ) ∈ neighborList A0 [] [A0] ∧ (0 : ℕ) ∈ tooCloseList A0 [] [A0])
    ∧ neighborList A0 [] [A0] ≠ [] ∧ tooCloseList A0 [] [A0] ≠ [] :=
  claim_C10 [A0] [] A0 (List.mem_cons_self A0 [])
    (by norm_num [A0]) (by norm_num [A0])

end
